import Mathlib

/-!
Verification of the DocumentationApiAdmin HTTP handlers.

The repository contains two revisions of the same express router
(`src/routes/index.js` and a second, unnamed router file).  Each route
handler is embedded as a pure Lean function from the relevant MongoDB
collection state and the request data to a response and an updated state.

JSON request-body values are modelled by `JVal` (scalars and arrays;
`absent` stands for a missing property, i.e. JavaScript `undefined`).
A MongoDB document / JSON object is an association list of field names
to values (`Obj`).  MongoDB ObjectIds are modelled by their string
representation, with matching as string equality.
-/

namespace DocApi

/-- A JSON-ish JavaScript value as seen by the handlers: missing
property (`absent`, i.e. `undefined`), `null`, booleans, numbers,
strings and arrays. -/
inductive JVal where
  | absent : JVal
  | nullv : JVal
  | bool : Bool → JVal
  | num : Int → JVal
  | str : String → JVal
  | arr : List JVal → JVal
deriving Repr

mutual

def JVal.beq : JVal → JVal → Bool
  | .absent, .absent => true
  | .nullv, .nullv => true
  | .bool a, .bool b => a == b
  | .num a, .num b => a == b
  | .str a, .str b => a == b
  | .arr a, .arr b => JVal.beqList a b
  | _, _ => false

def JVal.beqList : List JVal → List JVal → Bool
  | [], [] => true
  | x :: xs, y :: ys => JVal.beq x y && JVal.beqList xs ys
  | _, _ => false

end

instance : BEq JVal := ⟨JVal.beq⟩

mutual

theorem JVal.eq_of_beq : ∀ {a b : JVal}, JVal.beq a b = true → a = b
  | .absent, .absent, _ => rfl
  | .nullv, .nullv, _ => rfl
  | .bool _, .bool _, h => by
      simpa [JVal.beq] using h
  | .num _, .num _, h => by
      simpa [JVal.beq] using h
  | .str _, .str _, h => by
      simpa [JVal.beq] using h
  | .arr xs, .arr ys, h => by
      have h2 : JVal.beqList xs ys = true := by simpa [JVal.beq] using h
      rw [JVal.eqList_of_beqList h2]

theorem JVal.eqList_of_beqList : ∀ {xs ys : List JVal},
    JVal.beqList xs ys = true → xs = ys
  | [], [], _ => rfl
  | x :: xs, y :: ys, h => by
      rw [JVal.beqList] at h
      obtain ⟨h1, h2⟩ := Bool.and_eq_true_iff.mp h
      rw [JVal.eq_of_beq h1, JVal.eqList_of_beqList h2]

end

mutual

theorem JVal.beq_refl : ∀ (a : JVal), JVal.beq a a = true
  | .absent => rfl
  | .nullv => rfl
  | .bool b => by simp [JVal.beq]
  | .num n => by simp [JVal.beq]
  | .str s => by simp [JVal.beq]
  | .arr xs => by rw [JVal.beq]; exact JVal.beqList_refl xs

theorem JVal.beqList_refl : ∀ (xs : List JVal), JVal.beqList xs xs = true
  | [] => rfl
  | x :: xs => by
      rw [JVal.beqList, JVal.beq_refl x, JVal.beqList_refl xs]; rfl

end

instance : LawfulBEq JVal where
  eq_of_beq := JVal.eq_of_beq
  rfl := JVal.beq_refl _

instance : DecidableEq JVal := fun a b =>
  decidable_of_iff (JVal.beq a b = true) ⟨JVal.eq_of_beq, fun h => h ▸ JVal.beq_refl a⟩

/-- A JSON object / MongoDB document: an association list of field
names to values.  Parsed JSON objects have pairwise distinct keys. -/
abbrev Obj := List (String × JVal)

/-- Property lookup `o[k]`: a missing property reads as `undefined`. -/
def getField (o : Obj) (k : String) : JVal :=
  match o.find? (fun kv => kv.1 == k) with
  | some kv => kv.2
  | none => .absent

/-- JavaScript truthiness of a value (`!v` is `!truthy v`):
`undefined`, `null`, `false`, `0` and `""` are falsy; every array is
truthy (including the empty array). -/
def truthy : JVal → Bool
  | .absent => false
  | .nullv => false
  | .bool b => b
  | .num n => n != 0
  | .str s => s != ""
  | .arr _ => true

/-- `v[0]` in JavaScript: throws a `TypeError` on `undefined` and
`null`; on a string yields its first character (or `undefined` when
empty); on an array its head (or `undefined` when empty); on numbers
and booleans yields `undefined`. -/
def jsIndex0 : JVal → Except Unit JVal
  | .absent => .error ()
  | .nullv => .error ()
  | .bool _ => .ok .absent
  | .num _ => .ok .absent
  | .str s => .ok (if s = "" then .absent else .str (String.singleton s.front))
  | .arr xs => .ok (match xs with | [] => .absent | x :: _ => x)

/-- `s.toLowerCase()` on a string: lowercase character by character
(the character-wise unfolding of `String.toLower`). -/
def strToLower (s : String) : String :=
  String.mk (s.data.map Char.toLower)

/-- `v.toLowerCase()` in JavaScript: defined on strings only, throws a
`TypeError` on everything else. -/
def jsToLowerCase : JVal → Except Unit String
  | .str s => .ok (strToLower s)
  | _ => .error ()

/-- `require('mongodb').ObjectId.isValid`: a 12-character string or a
24-character hexadecimal string. -/
def isHexChar (c : Char) : Bool :=
  c.isDigit || (('a' ≤ c && c ≤ 'f') || ('A' ≤ c && c ≤ 'F'))

def isValidObjectId (s : String) : Bool :=
  s.length == 12 || (s.length == 24 && s.toList.all isHexChar)

/-! ### POST /documentation — create a document (identical in both revisions) -/

/-- The required-field list of the create handler, checked in order. -/
def requiredFields : List String :=
  ["title", "description", "category", "tags", "status"]

/-- The `newDoc` object literal built by the create handler:
`url: req.body.url || ''` and
`tags: Array.isArray(req.body.tags) ? req.body.tags : []`. -/
def newDocOf (body : Obj) : Obj :=
  [ ("title", getField body "title"),
    ("description", getField body "description"),
    ("url", if truthy (getField body "url") then getField body "url" else .str ""),
    ("category", getField body "category"),
    ("tags", match getField body "tags" with | .arr xs => .arr xs | _ => .arr []),
    ("status", getField body "status") ]

inductive CreateDocResp where
  | badRequest : String → CreateDocResp
  | created : String → Obj → CreateDocResp
deriving Repr

def CreateDocResp.statusCode : CreateDocResp → Nat
  | .badRequest _ => 400
  | .created _ _ => 201

/-- `POST /documentation`: validate the required fields in order, then
insert `newDoc` into the `documentation` collection.  `freshId` is the
ObjectId assigned by the store to the inserted document. -/
def postDocumentation (freshId : String) (store : List Obj) (body : Obj) :
    CreateDocResp × List Obj :=
  match requiredFields.find? (fun f => !truthy (getField body f)) with
  | some f => (.badRequest ("Missing required field: " ++ f), store)
  | none =>
      let newDoc := newDocOf body
      (.created freshId newDoc, store ++ [("_id", .str freshId) :: newDoc])

/-! ### The `categories` collection and POST /add/category -/

/-- A document of the `categories` collection. -/
structure Cat where
  name : String
  subcategories : List String
deriving Repr, DecidableEq

/-- `findOne({ name })` on the `categories` collection. -/
def findCat (store : List Cat) (name : String) : Option Cat :=
  store.find? (fun c => c.name == name)

/-- `updateOne({ name }, { $set: { subcategories } })`: replace the
subcategories of the first category named `name`. -/
def setCatSubs : List Cat → String → List String → List Cat
  | [], _, _ => []
  | c :: rest, name, subs =>
      if c.name == name then { c with subcategories := subs } :: rest
      else c :: setCatSubs rest name subs

/-- `[...new Set(xs)]` in JavaScript: deduplicate, keeping the first
occurrence of each element in insertion order. -/
def jsSetDedup (xs : List String) : List String :=
  xs.foldl (fun acc x => if acc.contains x then acc else acc ++ [x]) []

inductive AddCatResp where
  | badRequest : AddCatResp
  | updated : List String → AddCatResp
  | created : List String → AddCatResp
deriving Repr, DecidableEq

def AddCatResp.statusCode : AddCatResp → Nat
  | .badRequest => 400
  | .updated _ => 200
  | .created _ => 200

/-- `POST /add/category`, first revision (`src/routes/index.js`): merge
semantics.  If the category exists, its subcategories become the
deduplicated concatenation of the old and the requested ones, and only
the genuinely new subcategories are reported in `addedSubcategories`;
otherwise the category is inserted as given.  The request body is
modelled by a name string and a subcategory string array; a falsy
(empty) name is rejected as `Invalid category data`. -/
def postAddCategoryMerge (store : List Cat) (name : String)
    (subcategories : List String) : AddCatResp × List Cat :=
  if name = "" then (.badRequest, store)
  else
    match findCat store name with
    | some existing =>
        let updatedSubcategories :=
          jsSetDedup (existing.subcategories ++ subcategories)
        ( .updated (subcategories.filter
            (fun sub => !existing.subcategories.contains sub)),
          setCatSubs store name updatedSubcategories )
    | none =>
        (.created subcategories, store ++ [⟨name, subcategories⟩])

/-- `POST /add/category`, second revision: overwrite semantics.  A
plain upsert that `$set`s both fields, replacing any previously stored
subcategories wholesale; the response reports nothing. -/
def postAddCategoryOverwrite (store : List Cat) (name : String)
    (subcategories : List String) : AddCatResp × List Cat :=
  if name = "" then (.badRequest, store)
  else
    match findCat store name with
    | some _ => (.updated [], setCatSubs store name subcategories)
    | none => (.updated [], store ++ [⟨name, subcategories⟩])

/-! ### GET /category — list published documents by category -/

/-- First revision: the valid subcategory set is computed by flattening
all stored categories and lowercasing
(`categoriesData.reduce((acc, c) => [...acc, ...c.subcategories.map(s => s.toLowerCase())], [])`). -/
def flattenValidSubcategories (cats : List Cat) : List String :=
  cats.foldl (fun acc c => acc ++ c.subcategories.map strToLower) []

/-- Second revision: the valid category list is hardcoded. -/
def validCategoriesHardcoded : List String :=
  ["apache", "nodejs", "mongodb", "mysql", "jenkins", "docker",
   "kubernetes", "gitLab", "postgresql", "redis", "python", "java",
   "php", "nginx"]

/-- `s.split(',')` on a non-empty string: cut at every comma
(the character-wise unfolding of `String.splitOn ","`). -/
def splitCommaAux : List Char → List Char → List String
  | [], acc => [String.mk acc.reverse]
  | c :: rest, acc =>
      if c = ',' then String.mk acc.reverse :: splitCommaAux rest []
      else splitCommaAux rest (c :: acc)

def jsSplitComma (s : String) : List String :=
  splitCommaAux s.data []

/-- `req.query.categories ? req.query.categories.split(',') : []`:
an absent or empty query parameter yields the empty list. -/
def splitQueryCategories : Option String → List String
  | none => []
  | some s => if s = "" then [] else jsSplitComma s

/-- The category-resolution step shared by both revisions: default to
the full valid list when no filter was requested, otherwise keep the
requested categories that are valid, failing (400, reporting the valid
list) when none is. -/
def resolveCategories (valid : List String) (requested : List String) :
    Except (List String) (List String) :=
  if requested = [] then .ok valid
  else
    let kept := requested.filter (fun cat => valid.contains cat)
    if kept = [] then .error valid else .ok kept

/-- MongoDB equality of a stored field value against a query string:
matches a string directly, or any element of a stored array. -/
def valMatchesStr (v : JVal) (s : String) : Bool :=
  match v with
  | .str c => c == s
  | .arr xs => xs.any (fun x => match x with | .str c => c == s | _ => false)
  | _ => false

/-- MongoDB `$in`: the stored value matches some string of the list. -/
def valMatchesIn (v : JVal) (cats : List String) : Bool :=
  cats.any (fun s => valMatchesStr v s)

/-- The `find({ category: { $in: cats }, status: "published" })` query
of the listing endpoint. -/
def findPublishedIn (docs : List Obj) (cats : List String) : List Obj :=
  docs.filter (fun d =>
    valMatchesIn (getField d "category") cats &&
    valMatchesStr (getField d "status") "published")

inductive ListDocsResp where
  | badRequest : List String → ListDocsResp
  | ok : Nat → List Obj → ListDocsResp
deriving Repr

def ListDocsResp.statusCode : ListDocsResp → Nat
  | .badRequest _ => 400
  | .ok _ _ => 200

/-- `GET /category`, first revision: resolve the filter against the
flattened live `categories` collection, then list the published
documents in the resolved categories. -/
def getCategoryRoute (cats : List Cat) (docs : List Obj)
    (query : Option String) : ListDocsResp :=
  let valid := flattenValidSubcategories cats
  match resolveCategories valid (splitQueryCategories query) with
  | .error v => .badRequest v
  | .ok subcategories =>
      let documents := findPublishedIn docs subcategories
      .ok documents.length documents

/-- `GET /category`, second revision: same shape, hardcoded valid list. -/
def getCategoryRouteHardcoded (docs : List Obj) (query : Option String) :
    ListDocsResp :=
  match resolveCategories validCategoriesHardcoded (splitQueryCategories query) with
  | .error v => .badRequest v
  | .ok categories =>
      let documents := findPublishedIn docs categories
      .ok documents.length documents

/-! ### PUT /documentation/:id — update a document -/

/-- Assignment `o[k] = v` on an object: replace the value at an
existing key in place, otherwise append the new property.  (Parsed
JSON objects have pairwise distinct keys, so replacing the first
occurrence is the JavaScript behaviour.) -/
def setField : Obj → String → JVal → Obj
  | [], k, v => [(k, v)]
  | kv :: rest, k, v =>
      if kv.1 == k then (k, v) :: rest else kv :: setField rest k v

/-- `delete o._id`. -/
def deleteId (o : Obj) : Obj :=
  o.filter (fun kv => kv.1 != "_id")

/-- MongoDB `$set`: assign every field of `upd` on `doc`, in order. -/
def applySet (doc : Obj) (upd : Obj) : Obj :=
  upd.foldl (fun d kv => setField d kv.1 kv.2) doc

/-- `req.body.subcategories[0].toLowerCase()` — evaluated before the
database write; any `TypeError` aborts the handler into its 500 path. -/
def deriveCategory (body : Obj) : Except Unit String :=
  match jsIndex0 (getField body "subcategories") with
  | .error _ => .error ()
  | .ok v => jsToLowerCase v

/-- `updateOne({ _id }, { $set: upd })` on the `documentation`
collection: update the first matching document, returning the new
collection, the matched count and the modified count. -/
def updateFirstById : List Obj → String → Obj → List Obj × Nat × Nat
  | [], _, _ => ([], 0, 0)
  | d :: rest, id, upd =>
      if getField d "_id" == JVal.str id then
        let d2 := applySet d upd
        (d2 :: rest, 1, if d2 == d then 0 else 1)
      else
        let r := updateFirstById rest id upd
        (d :: r.1, r.2.1, r.2.2)

inductive UpdateDocResp where
  | invalidId : UpdateDocResp
  | emptyBody : UpdateDocResp
  | serverError : UpdateDocResp
  | notFound : UpdateDocResp
  | updated : Nat → UpdateDocResp
deriving Repr, DecidableEq

def UpdateDocResp.statusCode : UpdateDocResp → Nat
  | .invalidId => 400
  | .emptyBody => 400
  | .serverError => 500
  | .notFound => 404
  | .updated _ => 200

/-- `PUT /documentation/:id` (first revision only): validate the id and
a non-empty body, build `updateData` from the body with `_id` removed
and `category` overwritten by
`req.body.subcategories[0].toLowerCase()` (whose `TypeError`, if any,
is caught as a 500 before any write), then `updateOne` by id. -/
def putDocumentationById (store : List Obj) (id : String) (body : Obj) :
    UpdateDocResp × List Obj :=
  if !isValidObjectId id then (.invalidId, store)
  else if body.isEmpty then (.emptyBody, store)
  else
    match deriveCategory body with
    | .error _ => (.serverError, store)
    | .ok cat =>
        let updateData := setField (deleteId body) "category" (.str cat)
        let r := updateFirstById store id updateData
        if r.2.1 == 0 then (.notFound, r.1)
        else (.updated r.2.2, r.1)

/-! ### GET /documentation/:id — fetch a document -/

inductive GetDocResp where
  | invalidId : GetDocResp
  | notFound : GetDocResp
  | ok : Obj → GetDocResp
deriving Repr

def GetDocResp.statusCode : GetDocResp → Nat
  | .invalidId => 400
  | .notFound => 404
  | .ok _ => 200

/-- `findOne({ _id: new ObjectId(id) })`. -/
def findDocById (store : List Obj) (id : String) : Option Obj :=
  store.find? (fun d => getField d "_id" == JVal.str id)

/-- `GET /documentation/:id` (first revision only): 400 on a malformed
id, 404 when no document matches, otherwise the document itself,
whatever its status. -/
def getDocumentationById (store : List Obj) (id : String) : GetDocResp :=
  if !isValidObjectId id then .invalidId
  else
    match findDocById store id with
    | none => .notFound
    | some document => .ok document

/-! ### POST /category — technology variant (second revision only) -/

/-- A document of the `documentation_categories` collection: the name
is stored lowercased, the label is stored as received. -/
structure TechCat where
  name : String
  label : JVal
deriving Repr

inductive TechCatResp where
  | missingField : String → TechCatResp
  | serverError : TechCatResp
  | conflict : String → TechCatResp
  | created : String → JVal → TechCatResp
deriving Repr

def TechCatResp.statusCode : TechCatResp → Nat
  | .missingField _ => 400
  | .serverError => 500
  | .conflict _ => 409
  | .created _ _ => 201

/-- The duplicate check
`findOne({ $or: [{ name: newName }, { label: newLabel }] })`. -/
def findDupTechCat (store : List TechCat) (name : String) (label : JVal) :
    Option TechCat :=
  store.find? (fun t => t.name == name || t.label == label)

/-- `POST /category`, second revision (technology variant): require
`name` and `label` in order, lowercase the name (a `TypeError` on a
non-string truthy name is caught as a 500), reject a duplicate name or
label with a 409 naming which field collided, otherwise insert. -/
def postCategoryTech (store : List TechCat) (body : Obj) :
    TechCatResp × List TechCat :=
  match ["name", "label"].find? (fun f => !truthy (getField body f)) with
  | some f => (.missingField ("Missing required field: " ++ f), store)
  | none =>
      match jsToLowerCase (getField body "name") with
      | .error _ => (.serverError, store)
      | .ok newName =>
          let newLabel := getField body "label"
          match findDupTechCat store newName newLabel with
          | some existing =>
              ( .conflict (if existing.name == newName
                  then "A technology with this name already exists"
                  else "A technology with this label already exists"),
                store )
          | none =>
              (.created newName newLabel, store ++ [⟨newName, newLabel⟩])

/-! ### Lemmas about objects and the update pipeline -/

theorem getField_setField_self (o : Obj) (k : String) (v : JVal) :
    getField (setField o k v) k = v := by
  induction o with
  | nil => simp [setField, getField]
  | cons kv rest ih =>
      by_cases h : kv.1 = k
      · simp [setField, h, getField]
      · have hb : (kv.1 == k) = false := beq_eq_false_iff_ne.mpr h
        simp [setField, hb, getField] at ih ⊢
        exact ih

theorem getField_setField_ne (o : Obj) (k k' : String) (v : JVal)
    (h : k' ≠ k) : getField (setField o k v) k' = getField o k' := by
  induction o with
  | nil =>
      have : (k == k') = false := beq_eq_false_iff_ne.mpr (Ne.symm h)
      simp [setField, getField, this]
  | cons kv rest ih =>
      by_cases hk : kv.1 = k
      · have hb : (kv.1 == k) = true := beq_iff_eq.mpr hk
        have hkk' : (k == k') = false := beq_eq_false_iff_ne.mpr (Ne.symm h)
        have hkvk' : (kv.1 == k') = false := by
          rw [hk]; exact hkk'
        simp [setField, hb, getField, hkk', hkvk']
      · have hb : (kv.1 == k) = false := beq_eq_false_iff_ne.mpr hk
        by_cases hk' : kv.1 = k'
        · have hb' : (kv.1 == k') = true := beq_iff_eq.mpr hk'
          simp [setField, hb, getField, hb']
        · have hb' : (kv.1 == k') = false := beq_eq_false_iff_ne.mpr hk'
          simp [setField, hb, getField, hb'] at ih ⊢
          exact ih

theorem mem_setField {o : Obj} {k : String} {v : JVal} {p : String × JVal}
    (h : p ∈ setField o k v) : p ∈ o ∨ p = (k, v) := by
  induction o with
  | nil => simp [setField] at h; simp [h]
  | cons kv rest ih =>
      by_cases hk : (kv.1 == k) = true
      · simp [setField, hk] at h
        rcases h with h | h
        · right; simp [h]
        · left; simp [h]
      · rw [setField, if_neg hk] at h
        rcases List.mem_cons.mp h with h | h
        · left; simp [h]
        · rcases ih h with h | h
          · left; simp [h]
          · right; exact h

theorem setField_mem_self (o : Obj) (k : String) (v : JVal) :
    (k, v) ∈ setField o k v := by
  induction o with
  | nil => simp [setField]
  | cons kv rest ih =>
      by_cases hk : (kv.1 == k) = true
      · simp [setField, hk]
      · rw [setField, if_neg hk]
        exact List.mem_cons_of_mem _ ih

theorem setField_entry_unique {o : Obj} {k : String} {v : JVal}
    (hnd : (o.map Prod.fst).Nodup) :
    ∀ p ∈ setField o k v, p.1 = k → p.2 = v := by
  induction o with
  | nil =>
      intro p hp _
      simp [setField] at hp
      simp [hp]
  | cons kv rest ih =>
      intro p hp hpk
      by_cases hk : (kv.1 == k) = true
      · simp [setField, hk] at hp
        rcases hp with hp | hp
        · simp [hp]
        · exfalso
          have hkv : kv.1 = k := beq_iff_eq.mp hk
          have : kv.1 ∉ rest.map Prod.fst := (List.nodup_cons.mp (by simpa using hnd)).1
          exact this (by
            rw [hkv, ← hpk]
            exact List.mem_map_of_mem Prod.fst hp)
      · rw [setField, if_neg hk] at hp
        rcases List.mem_cons.mp hp with hp | hp
        · rw [hp] at hpk
          exact absurd (beq_iff_eq.mpr hpk) hk
        · exact ih (List.nodup_cons.mp (by simpa using hnd)).2 p hp hpk

theorem getField_applySet_of_not_key {upd : Obj} {k : String}
    (h : ∀ p ∈ upd, p.1 ≠ k) (d : Obj) :
    getField (applySet d upd) k = getField d k := by
  induction upd generalizing d with
  | nil => rfl
  | cons kv rest ih =>
      have hstep : applySet d (kv :: rest) = applySet (setField d kv.1 kv.2) rest := rfl
      rw [hstep, ih (fun p hp => h p (List.mem_cons_of_mem _ hp)),
        getField_setField_ne _ _ _ _ (Ne.symm (h kv (List.mem_cons_self _ _)))]

theorem getField_applySet_of_entry {upd : Obj} {k : String} {v : JVal}
    (hmem : (k, v) ∈ upd) (huniq : ∀ p ∈ upd, p.1 = k → p.2 = v) (d : Obj) :
    getField (applySet d upd) k = v := by
  induction upd generalizing d with
  | nil => simp at hmem
  | cons kv rest ih =>
      have hstep : applySet d (kv :: rest) = applySet (setField d kv.1 kv.2) rest := rfl
      by_cases hrest : ∃ w, (k, w) ∈ rest
      · obtain ⟨w, hw⟩ := hrest
        have hwv : w = v := huniq (k, w) (List.mem_cons_of_mem _ hw) rfl
        subst hwv
        exact hstep ▸ ih hw (fun p hp => huniq p (List.mem_cons_of_mem _ hp)) _
      · have hkv : kv = (k, v) := by
          rcases List.mem_cons.mp hmem with h | h
          · exact h.symm
          · exact absurd ⟨v, h⟩ hrest
        subst hkv
        have hnone : ∀ p ∈ rest, p.1 ≠ k := by
          intro p hp hpk
          exact hrest ⟨p.2, by rw [← hpk]; simpa using hp⟩
        rw [hstep, getField_applySet_of_not_key hnone, getField_setField_self]

theorem deleteId_no_id {o : Obj} : ∀ p ∈ deleteId o, p.1 ≠ "_id" := by
  intro p hp
  have := List.of_mem_filter hp
  simpa [bne_iff_ne] using this

theorem deleteId_nodup {o : Obj} (h : (o.map Prod.fst).Nodup) :
    ((deleteId o).map Prod.fst).Nodup := by
  exact ((List.filter_sublist o).map Prod.fst).nodup h

theorem updateFirstById_no_match {store : List Obj} {id : String} (upd : Obj)
    (h : ∀ d ∈ store, (getField d "_id" == JVal.str id) = false) :
    updateFirstById store id upd = (store, 0, 0) := by
  induction store with
  | nil => rfl
  | cons d rest ih =>
      rw [updateFirstById, if_neg (by simp [h d (List.mem_cons_self _ _)]),
        ih (fun d hd => h d (List.mem_cons_of_mem _ hd))]

theorem updateFirstById_matched {store : List Obj} {id : String} (upd : Obj)
    (h : ∃ d ∈ store, (getField d "_id" == JVal.str id) = true) :
    (updateFirstById store id upd).2.1 = 1 ∧
    ∃ d ∈ store, (getField d "_id" == JVal.str id) = true ∧
      applySet d upd ∈ (updateFirstById store id upd).1 := by
  induction store with
  | nil => simp at h
  | cons d rest ih =>
      by_cases hd : (getField d "_id" == JVal.str id) = true
      · refine ⟨by rw [updateFirstById, if_pos hd], d, List.mem_cons_self _ _, hd, ?_⟩
        rw [updateFirstById, if_pos hd]
        exact List.mem_cons_self _ _
      · have hrest : ∃ e ∈ rest, (getField e "_id" == JVal.str id) = true := by
          rcases h with ⟨e, he, heq⟩
          rcases List.mem_cons.mp he with rfl | he'
          · exact absurd heq hd
          · exact ⟨e, he', heq⟩
        obtain ⟨h1, e, he, heq, hmem⟩ := ih hrest
        refine ⟨?_, e, List.mem_cons_of_mem _ he, heq, ?_⟩
        · rw [updateFirstById, if_neg hd]
          exact h1
        · rw [updateFirstById, if_neg hd]
          exact List.mem_cons_of_mem _ hmem

theorem updateFirstById_ids (store : List Obj) (id : String) {upd : Obj}
    (h : ∀ p ∈ upd, p.1 ≠ "_id") :
    (updateFirstById store id upd).1.map (fun d => getField d "_id") =
      store.map (fun d => getField d "_id") := by
  induction store with
  | nil => rfl
  | cons d rest ih =>
      by_cases hd : (getField d "_id" == JVal.str id) = true
      · rw [updateFirstById, if_pos hd]
        simp only [List.map_cons]
        rw [getField_applySet_of_not_key h]
      · rw [updateFirstById, if_neg hd]
        simp only [List.map_cons]
        rw [ih]

/-! ### Claim theorems -/

/-- C4: a document-create request missing one of the required fields
`title`, `description`, `category`, `tags`, `status` is answered with a
400 response naming a missing field, and the `documentation` collection
is left unchanged. -/
theorem claim_C4_create_missing_field (freshId : String) (store : List Obj)
    (body : Obj) (h : ∃ f ∈ requiredFields, truthy (getField body f) = false) :
    ∃ f ∈ requiredFields, truthy (getField body f) = false ∧
      postDocumentation freshId store body =
        (.badRequest ("Missing required field: " ++ f), store) ∧
      ((postDocumentation freshId store body).1).statusCode = 400 := by
  have hsome : (requiredFields.find? (fun f => !truthy (getField body f))).isSome = true := by
    rw [List.find?_isSome]
    obtain ⟨f, hf, hft⟩ := h
    exact ⟨f, hf, by simp [hft]⟩
  obtain ⟨f0, hf0⟩ := Option.isSome_iff_exists.mp hsome
  have hfmem := List.mem_of_find?_eq_some hf0
  have hffalse : truthy (getField body f0) = false := by
    simpa using List.find?_some hf0
  refine ⟨f0, hfmem, hffalse, ?_, ?_⟩ <;>
    simp [postDocumentation, hf0, CreateDocResp.statusCode]

theorem claim_C4_witness :
    ∃ f ∈ requiredFields, truthy (getField [("title", JVal.str "t")] f) = false ∧
      postDocumentation "65a0f1e2d3c4b5a69788aabb" [] [("title", JVal.str "t")] =
        (.badRequest ("Missing required field: " ++ f), []) ∧
      ((postDocumentation "65a0f1e2d3c4b5a69788aabb" [] [("title", JVal.str "t")]).1).statusCode = 400 :=
  claim_C4_create_missing_field "65a0f1e2d3c4b5a69788aabb" [] [("title", JVal.str "t")]
    ⟨"description", by decide, by decide⟩

/-- C5 counterexample: a fully valid create request persists a document
whose fields are exactly `_id`, `title`, `description`, `url`,
`category`, `tags` and `status`: no creation timestamp of any kind
(e.g. `createdAt`) is stored, contrary to the claim. -/
theorem claim_C5_counterexample :
    (postDocumentation "65a0f1e2d3c4b5a69788aabb" []
        [("title", JVal.str "t"), ("description", JVal.str "d"),
         ("category", JVal.str "nodejs"), ("tags", JVal.arr [JVal.str "x"]),
         ("status", JVal.str "published")]).2.map (fun d => d.map Prod.fst) =
      [["_id", "title", "description", "url", "category", "tags", "status"]] ∧
    getField (postDocumentation "65a0f1e2d3c4b5a69788aabb" []
        [("title", JVal.str "t"), ("description", JVal.str "d"),
         ("category", JVal.str "nodejs"), ("tags", JVal.arr [JVal.str "x"]),
         ("status", JVal.str "published")]).2.headI "createdAt" = JVal.absent :=
  ⟨rfl, rfl⟩

/-- C5 (amended): a create request with all required fields truthy is
answered 201 and the built document — with a server-assigned `_id`,
`url` defaulted to `""` when falsy and `tags` defaulted to `[]` when
not an array — is appended to the collection; no creation timestamp is
stored (the persisted fields are exactly those of `newDocOf` plus
`_id`). -/
theorem claim_C5_create_success (freshId : String) (store : List Obj) (body : Obj)
    (h : ∀ f ∈ requiredFields, truthy (getField body f) = true) :
    postDocumentation freshId store body =
      (.created freshId (newDocOf body),
        store ++ [("_id", .str freshId) :: newDocOf body]) ∧
    ((postDocumentation freshId store body).1).statusCode = 201 ∧
    getField (("_id", .str freshId) :: newDocOf body) "_id" = .str freshId ∧
    (truthy (getField body "url") = false → getField (newDocOf body) "url" = .str "") ∧
    ((∀ xs, getField body "tags" ≠ .arr xs) → getField (newDocOf body) "tags" = .arr []) ∧
    (newDocOf body).map Prod.fst = ["title", "description", "url", "category", "tags", "status"] := by
  have hnone : requiredFields.find? (fun f => !truthy (getField body f)) = none :=
    List.find?_eq_none.mpr (fun f hf => by simp [h f hf])
  refine ⟨?_, ?_, ?_, ?_, ?_, rfl⟩
  · simp [postDocumentation, hnone]
  · simp [postDocumentation, hnone, CreateDocResp.statusCode]
  · rfl
  · intro hu
    show (if truthy (getField body "url") then getField body "url" else .str "") = .str ""
    rw [hu]
    rfl
  · intro ht
    show (match getField body "tags" with | .arr xs => JVal.arr xs | _ => .arr []) = .arr []
    rcases hv : getField body "tags" with _ | _ | b | n | s | xs <;> simp
    exact absurd hv (ht xs)

theorem claim_C5_witness :
    postDocumentation "65a0f1e2d3c4b5a69788aabb" []
        [("title", JVal.str "t"), ("description", JVal.str "d"),
         ("category", JVal.str "nodejs"), ("tags", JVal.str "oops"),
         ("status", JVal.str "draft")] =
      (.created "65a0f1e2d3c4b5a69788aabb"
        (newDocOf [("title", JVal.str "t"), ("description", JVal.str "d"),
          ("category", JVal.str "nodejs"), ("tags", JVal.str "oops"),
          ("status", JVal.str "draft")]),
       [("_id", .str "65a0f1e2d3c4b5a69788aabb") ::
         newDocOf [("title", JVal.str "t"), ("description", JVal.str "d"),
           ("category", JVal.str "nodejs"), ("tags", JVal.str "oops"),
           ("status", JVal.str "draft")]]) ∧
    getField (newDocOf [("title", JVal.str "t"), ("description", JVal.str "d"),
        ("category", JVal.str "nodejs"), ("tags", JVal.str "oops"),
        ("status", JVal.str "draft")]) "url" = .str "" ∧
    getField (newDocOf [("title", JVal.str "t"), ("description", JVal.str "d"),
        ("category", JVal.str "nodejs"), ("tags", JVal.str "oops"),
        ("status", JVal.str "draft")]) "tags" = .arr [] := by
  have h := claim_C5_create_success "65a0f1e2d3c4b5a69788aabb" []
    [("title", JVal.str "t"), ("description", JVal.str "d"),
     ("category", JVal.str "nodejs"), ("tags", JVal.str "oops"),
     ("status", JVal.str "draft")] (by decide)
  exact ⟨h.1, h.2.2.2.1 (by decide), h.2.2.2.2.1 (fun xs hx => JVal.noConfusion hx)⟩

/-- C7: fetching a document by id returns 400 on a malformed ObjectId,
404 when a well-formed id matches no stored document, and otherwise the
matching document itself, whatever its status. -/
theorem claim_C7_get_by_id (store : List Obj) (id : String) :
    (isValidObjectId id = false →
      getDocumentationById store id = .invalidId ∧
      (getDocumentationById store id).statusCode = 400) ∧
    (isValidObjectId id = true → findDocById store id = none →
      getDocumentationById store id = .notFound ∧
      (getDocumentationById store id).statusCode = 404) ∧
    (∀ d, isValidObjectId id = true → findDocById store id = some d →
      getDocumentationById store id = .ok d ∧
      (getDocumentationById store id).statusCode = 200) := by
  refine ⟨fun h1 => ?_, fun h1 h2 => ?_, fun d h1 h2 => ?_⟩
  · simp [getDocumentationById, h1, GetDocResp.statusCode]
  · simp [getDocumentationById, h1, h2, GetDocResp.statusCode]
  · simp [getDocumentationById, h1, h2, GetDocResp.statusCode]

theorem claim_C7_witness :
    getDocumentationById
        [[("_id", JVal.str "aaaaaaaaaaaaaaaaaaaaaaaa"), ("status", JVal.str "draft")]]
        "aaaaaaaaaaaaaaaaaaaaaaaa" =
      .ok [("_id", JVal.str "aaaaaaaaaaaaaaaaaaaaaaaa"), ("status", JVal.str "draft")] ∧
    getDocumentationById [] "aaaaaaaaaaaaaaaaaaaaaaaa" = .notFound ∧
    getDocumentationById [] "not-a-valid-objectid-----" = .invalidId :=
  ⟨((claim_C7_get_by_id _ _).2.2 _ (by decide) (by decide)).1,
   ((claim_C7_get_by_id _ _).2.1 (by decide) (by decide)).1,
   ((claim_C7_get_by_id _ _).1 (by decide)).1⟩

/-- C10: the update handler deletes any client-supplied `_id` from the
update data, so a `PUT /documentation/:id` request never changes the
`_id` field of any stored document, whatever its body contains. -/
theorem claim_C10_update_preserves_ids (store : List Obj) (id : String) (body : Obj) :
    (putDocumentationById store id body).2.map (fun d => getField d "_id") =
      store.map (fun d => getField d "_id") := by
  rw [putDocumentationById]
  by_cases h1 : isValidObjectId id
  · rw [if_neg (by simp [h1])]
    by_cases h2 : body.isEmpty
    · simp [h2]
    · rw [if_neg (by simp [h2])]
      split
      · rfl
      · rename_i cat hc
        dsimp only
        have hupd : ∀ p ∈ setField (deleteId body) "category" (JVal.str cat),
            p.1 ≠ "_id" := by
          intro p hp
          rcases mem_setField hp with h | h
          · exact deleteId_no_id p h
          · simp [h]
        have hids := updateFirstById_ids store id hupd
        split
        · simpa using hids
        · simpa using hids
  · simp [h1]

/-- C6 counterexample: a well-formed id together with the non-empty
body `{"title": "x"}` is answered 500 (the handler dereferences
`req.body.subcategories[0]` before the lookup and throws), not 404 as
the claim requires for an unmatched identifier. -/
theorem claim_C6_counterexample :
    isValidObjectId "aaaaaaaaaaaaaaaaaaaaaaaa" = true ∧
    putDocumentationById [] "aaaaaaaaaaaaaaaaaaaaaaaa" [("title", JVal.str "x")] =
      (.serverError, []) ∧
    UpdateDocResp.serverError ≠ UpdateDocResp.notFound ∧
    UpdateDocResp.serverError.statusCode = 500 :=
  ⟨rfl, rfl, by decide, rfl⟩

/-- C6 (amended): for the update endpoint, a malformed id gives 400, an
empty body gives 400, and — provided the body additionally admits the
`subcategories`-derived category (otherwise the handler 500s, see C9) —
an unmatched id gives 404 and a matched id gives 200 with the modified
count. -/
theorem claim_C6_update_status_paths (store : List Obj) (id : String) (body : Obj) :
    (isValidObjectId id = false →
      putDocumentationById store id body = (.invalidId, store) ∧
      UpdateDocResp.invalidId.statusCode = 400) ∧
    (isValidObjectId id = true → body = [] →
      putDocumentationById store id body = (.emptyBody, store) ∧
      UpdateDocResp.emptyBody.statusCode = 400) ∧
    (∀ c, isValidObjectId id = true → body ≠ [] → deriveCategory body = .ok c →
      (∀ d ∈ store, (getField d "_id" == JVal.str id) = false) →
      (putDocumentationById store id body).1 = .notFound ∧
      UpdateDocResp.notFound.statusCode = 404) ∧
    (∀ c, isValidObjectId id = true → body ≠ [] → deriveCategory body = .ok c →
      (∃ d ∈ store, (getField d "_id" == JVal.str id) = true) →
      ∃ n, (putDocumentationById store id body).1 = .updated n ∧
        (UpdateDocResp.updated n).statusCode = 200) := by
  refine ⟨fun h1 => ?_, fun h1 h2 => ?_, fun c h1 h2 hc hno => ?_, fun c h1 h2 hc hyes => ?_⟩
  · simp [putDocumentationById, h1, UpdateDocResp.statusCode]
  · simp [putDocumentationById, h1, h2, UpdateDocResp.statusCode]
  · have hemp : body.isEmpty = false := by
      simpa [List.isEmpty_iff] using h2
    have hmatch := updateFirstById_no_match
      (setField (deleteId body) "category" (JVal.str c)) hno
    simp [putDocumentationById, h1, hemp, hc, hmatch, UpdateDocResp.statusCode]
  · have hemp : body.isEmpty = false := by
      simpa [List.isEmpty_iff] using h2
    have hmatch := (updateFirstById_matched
      (setField (deleteId body) "category" (JVal.str c)) hyes).1
    exact ⟨(updateFirstById store id
        (setField (deleteId body) "category" (JVal.str c))).2.2,
      by simp [putDocumentationById, h1, hemp, hc, hmatch, UpdateDocResp.statusCode], rfl⟩

theorem claim_C6_witness :
    (putDocumentationById [] "zz" [("subcategories", JVal.arr [JVal.str "X"])] =
      (.invalidId, []) ∧ UpdateDocResp.invalidId.statusCode = 400) ∧
    (putDocumentationById [] "aaaaaaaaaaaaaaaaaaaaaaaa" [] = (.emptyBody, []) ∧
      UpdateDocResp.emptyBody.statusCode = 400) ∧
    ((putDocumentationById [] "aaaaaaaaaaaaaaaaaaaaaaaa"
        [("subcategories", JVal.arr [JVal.str "X"])]).1 = .notFound ∧
      UpdateDocResp.notFound.statusCode = 404) ∧
    ∃ n, (putDocumentationById [[("_id", JVal.str "aaaaaaaaaaaaaaaaaaaaaaaa")]]
        "aaaaaaaaaaaaaaaaaaaaaaaa"
        [("subcategories", JVal.arr [JVal.str "X"])]).1 = .updated n ∧
      (UpdateDocResp.updated n).statusCode = 200 :=
  ⟨(claim_C6_update_status_paths [] "zz" [("subcategories", JVal.arr [JVal.str "X"])]).1
      (by decide),
   (claim_C6_update_status_paths [] "aaaaaaaaaaaaaaaaaaaaaaaa" []).2.1 (by decide) rfl,
   (claim_C6_update_status_paths [] "aaaaaaaaaaaaaaaaaaaaaaaa"
      [("subcategories", JVal.arr [JVal.str "X"])]).2.2.1 "x" (by decide)
      (by decide) rfl (by decide),
   (claim_C6_update_status_paths [[("_id", JVal.str "aaaaaaaaaaaaaaaaaaaaaaaa")]]
      "aaaaaaaaaaaaaaaaaaaaaaaa"
      [("subcategories", JVal.arr [JVal.str "X"])]).2.2.2 "x" (by decide)
      (by decide) rfl
      ⟨[("_id", JVal.str "aaaaaaaaaaaaaaaaaaaaaaaa")], by decide, by decide⟩⟩

/-- C9 counterexample: the body `{"subcategories": "Abc"}` contains no
subcategories array at all, yet the update succeeds with 200 (in
JavaScript `"Abc"[0].toLowerCase()` is `"a"`), the store is modified,
and no 500 is produced — contrary to the claimed error condition. -/
theorem claim_C9_counterexample :
    getField [("subcategories", JVal.str "Abc")] "subcategories" = JVal.str "Abc" ∧
    (putDocumentationById
        [[("_id", JVal.str "aaaaaaaaaaaaaaaaaaaaaaaa"), ("category", JVal.str "old"),
          ("status", JVal.str "draft")]]
        "aaaaaaaaaaaaaaaaaaaaaaaa" [("subcategories", JVal.str "Abc")]).1 =
      .updated 1 ∧
    UpdateDocResp.updated 1 ≠ UpdateDocResp.serverError ∧
    (putDocumentationById
        [[("_id", JVal.str "aaaaaaaaaaaaaaaaaaaaaaaa"), ("category", JVal.str "old"),
          ("status", JVal.str "draft")]]
        "aaaaaaaaaaaaaaaaaaaaaaaa" [("subcategories", JVal.str "Abc")]).2 ≠
      [[("_id", JVal.str "aaaaaaaaaaaaaaaaaaaaaaaa"), ("category", JVal.str "old"),
        ("status", JVal.str "draft")]] :=
  ⟨rfl, rfl, by decide, by decide⟩

/-- C9 (amended): with a well-formed id and a non-empty body (of
pairwise-distinct keys), the category derivation
`req.body.subcategories[0].toLowerCase()` fails — aborting the handler
into a 500 before any write, with every stored document unchanged —
exactly when `subcategories` is neither an array whose first element is
a string nor a non-empty string; every update that reaches a 200
overwrites the matched document's `category` with the derived
lowercased value. -/
theorem claim_C9_update_category_derivation (store : List Obj) (id : String)
    (body : Obj) (hid : isValidObjectId id = true) (hne : body ≠ [])
    (hnd : (body.map Prod.fst).Nodup) :
    (deriveCategory body = .error () →
      putDocumentationById store id body = (.serverError, store) ∧
      UpdateDocResp.serverError.statusCode = 500) ∧
    ((deriveCategory body).isOk = true ↔
      (∃ s rest, getField body "subcategories" = .arr (.str s :: rest)) ∨
      (∃ s, getField body "subcategories" = .str s ∧ s ≠ "")) ∧
    (∀ c n, deriveCategory body = .ok c →
      (putDocumentationById store id body).1 = .updated n →
      ∃ d ∈ (putDocumentationById store id body).2,
        getField d "_id" = .str id ∧ getField d "category" = .str c) := by
  have hemp : body.isEmpty = false := by
    simpa [List.isEmpty_iff] using hne
  refine ⟨fun herr => ?_, ?_, fun c n hc hresp => ?_⟩
  · simp [putDocumentationById, hid, hemp, herr, UpdateDocResp.statusCode]
  · rcases hv : getField body "subcategories" with _ | _ | b | m | s | xs
    · simp [deriveCategory, hv, jsIndex0, Except.isOk, Except.toBool]
    · simp [deriveCategory, hv, jsIndex0, Except.isOk, Except.toBool]
    · simp [deriveCategory, hv, jsIndex0, jsToLowerCase, Except.isOk, Except.toBool]
    · simp [deriveCategory, hv, jsIndex0, jsToLowerCase, Except.isOk, Except.toBool]
    · by_cases hs : s = ""
      · simp [deriveCategory, hv, jsIndex0, hs, jsToLowerCase, Except.isOk, Except.toBool]
      · simp [deriveCategory, hv, jsIndex0, hs, jsToLowerCase, Except.isOk, Except.toBool]
    · rcases xs with _ | ⟨x, rest⟩
      · simp [deriveCategory, hv, jsIndex0, jsToLowerCase, Except.isOk, Except.toBool]
      · rcases x with _ | _ | b | m | s | ys <;>
          simp [deriveCategory, hv, jsIndex0, jsToLowerCase, Except.isOk, Except.toBool]
  · by_cases hyes : ∃ d ∈ store, (getField d "_id" == JVal.str id) = true
    · obtain ⟨hone, d, hdmem, hdbeq, hdnew⟩ := updateFirstById_matched
        (setField (deleteId body) "category" (JVal.str c)) hyes
      have hdid : getField d "_id" = JVal.str id := by
        simpa using hdbeq
      have hupd_no_id : ∀ p ∈ setField (deleteId body) "category" (JVal.str c),
          p.1 ≠ "_id" := by
        intro p hp
        rcases mem_setField hp with h | h
        · exact deleteId_no_id p h
        · simp [h]
      refine ⟨applySet d (setField (deleteId body) "category" (JVal.str c)), ?_, ?_, ?_⟩
      · simpa [putDocumentationById, hid, hemp, hc, hone] using hdnew
      · rw [getField_applySet_of_not_key hupd_no_id, hdid]
      · exact getField_applySet_of_entry (setField_mem_self _ _ _)
          (setField_entry_unique (deleteId_nodup hnd)) d
    · exfalso
      have hno : ∀ d ∈ store, (getField d "_id" == JVal.str id) = false := by
        intro d hd
        rcases h : getField d "_id" == JVal.str id with _ | _
        · rfl
        · exact absurd ⟨d, hd, h⟩ hyes
      have hmatch := updateFirstById_no_match
        (setField (deleteId body) "category" (JVal.str c)) hno
      rw [show (putDocumentationById store id body).1 = .notFound by
        simp [putDocumentationById, hid, hemp, hc, hmatch]] at hresp
      exact UpdateDocResp.noConfusion hresp

theorem claim_C9_witness :
    (putDocumentationById [[("_id", JVal.str "aaaaaaaaaaaaaaaaaaaaaaaa")]]
        "aaaaaaaaaaaaaaaaaaaaaaaa" [("title", JVal.str "x")] =
      (.serverError, [[("_id", JVal.str "aaaaaaaaaaaaaaaaaaaaaaaa")]]) ∧
      UpdateDocResp.serverError.statusCode = 500) ∧
    ∃ d ∈ (putDocumentationById [[("_id", JVal.str "aaaaaaaaaaaaaaaaaaaaaaaa")]]
        "aaaaaaaaaaaaaaaaaaaaaaaa"
        [("subcategories", JVal.arr [JVal.str "NodeJS"])]).2,
      getField d "_id" = .str "aaaaaaaaaaaaaaaaaaaaaaaa" ∧
      getField d "category" = .str "nodejs" :=
  ⟨(claim_C9_update_category_derivation [[("_id", JVal.str "aaaaaaaaaaaaaaaaaaaaaaaa")]]
      "aaaaaaaaaaaaaaaaaaaaaaaa" [("title", JVal.str "x")] (by decide) (by decide)
      (by decide)).1 rfl,
   (claim_C9_update_category_derivation [[("_id", JVal.str "aaaaaaaaaaaaaaaaaaaaaaaa")]]
      "aaaaaaaaaaaaaaaaaaaaaaaa" [("subcategories", JVal.arr [JVal.str "NodeJS"])]
      (by decide) (by decide) (by decide)).2.2 "nodejs" 1 rfl rfl⟩

/-- C3: the category filter of the listing endpoint defaults to the
full known set when absent or empty, is intersected with the known set
when given, and an empty intersection yields a 400 response carrying
the known valid set (in both revisions of the endpoint). -/
theorem claim_C3_filter_resolution (valid requested : List String) :
    (requested = [] → resolveCategories valid requested = .ok valid) ∧
    (requested ≠ [] → requested.filter (fun cat => valid.contains cat) ≠ [] →
      resolveCategories valid requested =
        .ok (requested.filter (fun cat => valid.contains cat)) ∧
      ∀ x, x ∈ requested.filter (fun cat => valid.contains cat) ↔
        x ∈ requested ∧ x ∈ valid) ∧
    (requested ≠ [] → requested.filter (fun cat => valid.contains cat) = [] →
      resolveCategories valid requested = .error valid) ∧
    (∀ q, q = none ∨ q = some "" → splitQueryCategories q = []) ∧
    (∀ cats docs q v,
      resolveCategories (flattenValidSubcategories cats)
          (splitQueryCategories q) = .error v →
      getCategoryRoute cats docs q = .badRequest v ∧
      (ListDocsResp.badRequest v).statusCode = 400) ∧
    (∀ docs q v,
      resolveCategories validCategoriesHardcoded (splitQueryCategories q) = .error v →
      getCategoryRouteHardcoded docs q = .badRequest v ∧
      (ListDocsResp.badRequest v).statusCode = 400) := by
  have hres : resolveCategories valid requested =
      if requested = [] then .ok valid
      else if requested.filter (fun cat => valid.contains cat) = [] then .error valid
      else .ok (requested.filter (fun cat => valid.contains cat)) := rfl
  refine ⟨fun h => by rw [hres, if_pos h], fun h1 h2 => ⟨?_, ?_⟩,
    fun h1 h2 => by rw [hres, if_neg h1, if_pos h2], ?_, ?_, ?_⟩
  · rw [hres, if_neg h1, if_neg h2]
  · intro x
    simp [List.mem_filter, List.contains, List.elem_iff]
  · rintro q (rfl | rfl) <;> rfl
  · intro cats docs q v herr
    exact ⟨by simp [getCategoryRoute, herr], rfl⟩
  · intro docs q v herr
    exact ⟨by simp [getCategoryRouteHardcoded, herr], rfl⟩

theorem claim_C3_witness :
    resolveCategories ["mongodb", "redis"] [] = .ok ["mongodb", "redis"] ∧
    resolveCategories ["mongodb", "redis"] ["redis", "zzz"] = .ok ["redis"] ∧
    resolveCategories ["mongodb", "redis"] ["zzz"] = .error ["mongodb", "redis"] ∧
    getCategoryRoute [⟨"db", ["MongoDB"]⟩] [] (some "zzz") = .badRequest ["mongodb"] :=
  ⟨(claim_C3_filter_resolution ["mongodb", "redis"] []).1 rfl,
   ((claim_C3_filter_resolution ["mongodb", "redis"] ["redis", "zzz"]).2.1
      (by decide) (by decide)).1,
   (claim_C3_filter_resolution ["mongodb", "redis"] ["zzz"]).2.2.1
      (by decide) (by decide),
   ((claim_C3_filter_resolution [] []).2.2.2.2.1 [⟨"db", ["MongoDB"]⟩] []
      (some "zzz") ["mongodb"] rfl).1⟩

/-- C2: upserting a category twice with subcategory sets `{A, B}` then
`{B, C}` yields, under the merge revision, stored subcategories
`[A, B, C]` with only `[C]` reported as newly added on the second
call; under the overwrite revision the second call leaves exactly
`[B, C]`. -/
theorem claim_C2_upsert_twice (N A B C : String) (hN : N ≠ "")
    (hAB : A ≠ B) (hAC : A ≠ C) (hBC : B ≠ C) :
    (postAddCategoryMerge (postAddCategoryMerge [] N [A, B]).2 N [B, C]).2 =
      [⟨N, [A, B, C]⟩] ∧
    (postAddCategoryMerge (postAddCategoryMerge [] N [A, B]).2 N [B, C]).1 =
      .updated [C] ∧
    (postAddCategoryOverwrite (postAddCategoryOverwrite [] N [A, B]).2 N [B, C]).2 =
      [⟨N, [B, C]⟩] := by
  have nBA : (B == A) = false := beq_eq_false_iff_ne.mpr (Ne.symm hAB)
  have nCA : (C == A) = false := beq_eq_false_iff_ne.mpr (Ne.symm hAC)
  have nCB : (C == B) = false := beq_eq_false_iff_ne.mpr (Ne.symm hBC)
  have h1 : (postAddCategoryMerge [] N [A, B]).2 = [⟨N, [A, B]⟩] := by
    simp [postAddCategoryMerge, hN, findCat]
  have h2 : (postAddCategoryOverwrite [] N [A, B]).2 = [⟨N, [A, B]⟩] := by
    simp [postAddCategoryOverwrite, hN, findCat]
  rw [h1, h2]
  refine ⟨?_, ?_, ?_⟩
  · simp [postAddCategoryMerge, hN, findCat, setCatSubs, jsSetDedup,
      List.contains, List.elem, nBA, nCA, nCB, hAB, hAC, hBC,
      Ne.symm hAB, Ne.symm hAC, Ne.symm hBC]
  · simp [postAddCategoryMerge, hN, findCat, List.contains, List.elem,
      nBA, nCA, nCB, hAB, hAC, hBC, Ne.symm hAB, Ne.symm hAC, Ne.symm hBC]
  · simp [postAddCategoryOverwrite, hN, findCat, setCatSubs]

theorem claim_C2_witness :
    (postAddCategoryMerge
        (postAddCategoryMerge [] "databases" ["mongodb", "mysql"]).2
        "databases" ["mysql", "redis"]).2 =
      [⟨"databases", ["mongodb", "mysql", "redis"]⟩] ∧
    (postAddCategoryMerge
        (postAddCategoryMerge [] "databases" ["mongodb", "mysql"]).2
        "databases" ["mysql", "redis"]).1 = .updated ["redis"] ∧
    (postAddCategoryOverwrite
        (postAddCategoryOverwrite [] "databases" ["mongodb", "mysql"]).2
        "databases" ["mysql", "redis"]).2 =
      [⟨"databases", ["mysql", "redis"]⟩] :=
  claim_C2_upsert_twice "databases" "mongodb" "mysql" "redis"
    (by decide) (by decide) (by decide) (by decide)

/-- The document predicate of claim C1, written from the specification:
status is the string `published` and category is a string belonging to
the resolved category set. -/
def publishedInSet (cats : List String) (d : Obj) : Bool :=
  (getField d "status" == JVal.str "published") &&
    (match getField d "category" with
     | .str c => decide (c ∈ cats)
     | _ => false)

/-- C1: when the category filter resolves to a non-empty set `S` of
known categories, the listing response consists of exactly the stored
documents whose status is `published` and whose category lies in `S`,
with `totalDocuments` their number; draft or archived documents are
never returned.  (Stored documents are assumed to carry string-valued
`category` and `status` fields, as the create endpoint's data model
prescribes.) -/
theorem claim_C1_list_published_only (cats : List Cat) (docs : List Obj)
    (query : Option String) (S : List String)
    (hres : resolveCategories (flattenValidSubcategories cats)
      (splitQueryCategories query) = .ok S)
    (hS : S ≠ [])
    (hwf : ∀ d ∈ docs, (∃ c, getField d "category" = .str c) ∧
      (∃ s, getField d "status" = .str s)) :
    getCategoryRoute cats docs query =
      .ok (docs.filter (publishedInSet S)).length (docs.filter (publishedInSet S)) ∧
    (getCategoryRoute cats docs query).statusCode = 200 ∧
    (∀ d ∈ docs.filter (publishedInSet S),
      getField d "status" = .str "published" ∧
      getField d "status" ≠ .str "draft" ∧
      getField d "status" ≠ .str "archived") := by
  have hcongr : ∀ d ∈ docs,
      (valMatchesIn (getField d "category") S &&
        valMatchesStr (getField d "status") "published") = publishedInSet S d := by
    intro d hd
    obtain ⟨⟨c, hc⟩, s, hs⟩ := hwf d hd
    rw [publishedInSet, hc, hs, Bool.eq_iff_iff]
    simp only [valMatchesIn, valMatchesStr, Bool.and_eq_true, List.any_eq_true,
      beq_iff_eq, decide_eq_true_eq]
    constructor
    · rintro ⟨⟨t, ht, rfl⟩, h2⟩
      exact ⟨by simpa using h2, ht⟩
    · rintro ⟨h1, h2⟩
      exact ⟨⟨c, h2, rfl⟩, by simpa using h1⟩
  have hfind : findPublishedIn docs S = docs.filter (publishedInSet S) :=
    List.filter_congr hcongr
  refine ⟨?_, ?_, ?_⟩
  · simp [getCategoryRoute, hres, findPublishedIn] at hfind ⊢
    rw [hfind]
    exact ⟨rfl, rfl⟩
  · simp [getCategoryRoute, hres, ListDocsResp.statusCode]
  · intro d hd
    have hmem := List.mem_filter.mp hd
    obtain ⟨⟨c, hc⟩, s, hs⟩ := hwf d hmem.1
    have hpub : getField d "status" = .str "published" := by
      have := hmem.2
      rw [publishedInSet, Bool.and_eq_true] at this
      exact eq_of_beq this.1
    refine ⟨hpub, ?_, ?_⟩ <;> rw [hpub] <;> intro hcon <;>
      exact absurd (JVal.str.inj hcon) (by decide)

theorem claim_C1_witness :
    getCategoryRoute [⟨"db", ["MongoDB", "Redis"]⟩]
        [[("_id", JVal.str "a1"), ("category", JVal.str "mongodb"),
          ("status", JVal.str "published")],
         [("_id", JVal.str "a2"), ("category", JVal.str "mongodb"),
          ("status", JVal.str "draft")],
         [("_id", JVal.str "a3"), ("category", JVal.str "nginx"),
          ("status", JVal.str "published")]]
        none =
      .ok 1 [[("_id", JVal.str "a1"), ("category", JVal.str "mongodb"),
        ("status", JVal.str "published")]] := by
  have h := claim_C1_list_published_only [⟨"db", ["MongoDB", "Redis"]⟩]
    [[("_id", JVal.str "a1"), ("category", JVal.str "mongodb"),
      ("status", JVal.str "published")],
     [("_id", JVal.str "a2"), ("category", JVal.str "mongodb"),
      ("status", JVal.str "draft")],
     [("_id", JVal.str "a3"), ("category", JVal.str "nginx"),
      ("status", JVal.str "published")]]
    none ["mongodb", "redis"] rfl (by decide)
    (by
      intro d hd
      simp only [List.mem_cons, List.not_mem_nil, or_false] at hd
      rcases hd with rfl | rfl | rfl <;> exact ⟨⟨_, rfl⟩, _, rfl⟩)
  rw [h.1]
  rfl

/-- C8: the technology-variant category-create endpoint answers 400
naming the first missing of `name` and `label`, 409 — storing nothing —
when a stored category already has the same lowercased name or the same
label, and otherwise 201, storing the category with its name
lowercased. -/
theorem claim_C8_tech_category_create (store : List TechCat) (body : Obj) :
    (truthy (getField body "name") = false →
      postCategoryTech store body =
        (.missingField "Missing required field: name", store) ∧
      (TechCatResp.missingField "Missing required field: name").statusCode = 400) ∧
    (truthy (getField body "name") = true → truthy (getField body "label") = false →
      postCategoryTech store body =
        (.missingField "Missing required field: label", store) ∧
      (TechCatResp.missingField "Missing required field: label").statusCode = 400) ∧
    (∀ n l, getField body "name" = .str n → n ≠ "" →
      getField body "label" = l → truthy l = true →
      ((∃ t ∈ store, t.name = strToLower n ∨ t.label = l) →
        ∃ msg, postCategoryTech store body = (.conflict msg, store) ∧
          (TechCatResp.conflict msg).statusCode = 409) ∧
      ((∀ t ∈ store, t.name ≠ strToLower n ∧ t.label ≠ l) →
        postCategoryTech store body =
          (.created (strToLower n) l, store ++ [⟨strToLower n, l⟩]) ∧
        (TechCatResp.created (strToLower n) l).statusCode = 201)) := by
  refine ⟨fun h1 => ?_, fun h1 h2 => ?_, fun n l hn hne hl hlt => ⟨fun hdup => ?_, fun hfree => ?_⟩⟩
  · exact ⟨by simp [postCategoryTech, List.find?, h1], rfl⟩
  · exact ⟨by simp [postCategoryTech, List.find?, h1, h2], rfl⟩
  · have h1 : truthy (JVal.str n) = true := by simp [truthy, hne]
    have hfound : (findDupTechCat store (strToLower n) l).isSome = true := by
      rw [findDupTechCat, List.find?_isSome]
      obtain ⟨t, ht, hprop⟩ := hdup
      refine ⟨t, ht, ?_⟩
      rcases hprop with h | h <;> simp [h]
    obtain ⟨ex, hex⟩ := Option.isSome_iff_exists.mp hfound
    refine ⟨if ex.name == strToLower n
        then "A technology with this name already exists"
        else "A technology with this label already exists", ?_, rfl⟩
    simp [postCategoryTech, List.find?, hn, hl, h1, hlt, jsToLowerCase, hex]
  · have h1 : truthy (JVal.str n) = true := by simp [truthy, hne]
    have hnone : findDupTechCat store (strToLower n) l = none := by
      rw [findDupTechCat]
      refine List.find?_eq_none.mpr (fun t ht => ?_)
      obtain ⟨ha, hb⟩ := hfree t ht
      simp [ha, hb]
    refine ⟨?_, rfl⟩
    simp [postCategoryTech, List.find?, hn, hl, h1, hlt, jsToLowerCase, hnone]

theorem claim_C8_witness :
    postCategoryTech [] [("name", JVal.str "NodeJS")] =
      (.missingField "Missing required field: label", []) ∧
    (∃ msg, postCategoryTech [⟨"nodejs", JVal.str "Node"⟩]
        [("name", JVal.str "NodeJS"), ("label", JVal.str "Other")] =
      (.conflict msg, [⟨"nodejs", JVal.str "Node"⟩]) ∧
      (TechCatResp.conflict msg).statusCode = 409) ∧
    postCategoryTech [] [("name", JVal.str "NodeJS"), ("label", JVal.str "Node")] =
      (.created "nodejs" (JVal.str "Node"), [⟨"nodejs", JVal.str "Node"⟩]) :=
  ⟨((claim_C8_tech_category_create [] [("name", JVal.str "NodeJS")]).2.1
      (by decide) (by decide)).1,
   ((claim_C8_tech_category_create [⟨"nodejs", JVal.str "Node"⟩]
      [("name", JVal.str "NodeJS"), ("label", JVal.str "Other")]).2.2
      "NodeJS" (JVal.str "Other") rfl (by decide) rfl (by decide)).1
      ⟨⟨"nodejs", JVal.str "Node"⟩, by simp, Or.inl rfl⟩,
   (((claim_C8_tech_category_create [] [("name", JVal.str "NodeJS"),
      ("label", JVal.str "Node")]).2.2
      "NodeJS" (JVal.str "Node") rfl (by decide) rfl (by decide)).2
      (fun t ht => absurd ht (List.not_mem_nil t))).1⟩

end DocApi
